import Mathlib

/-!
Verification development for the charter serial-logger program (src/main.rs).

The program reads byte chunks from a serial port in a loop, accumulates them
in a text line buffer, extracts lines terminated by "\r\n", decodes each line
with get_data (exactly two whitespace tokens, the second hex-decoded and
UTF-8-decoded), fills an 11-slot record with parse_data, and hands the record
to a sink (CSV file or console log).  A Ctrl-C handler writes a stop command
to the port and clears a shared running flag.

Shallow embedding choices:
 - Rust String / str values are modelled as lists of Unicode scalar values
   (Str := List Nat); byte buffers as List Nat with entries below 256.
 - char::is_whitespace is the Unicode White_Space predicate, reproduced over
   scalar values in isWhitespaceRust.
 - hex::decode / hex::encode and String::from_utf8 (strict UTF-8 validation,
   rejecting overlong forms, surrogates and values above 0x10FFFF) are
   reproduced as executable functions on these lists.
 - The main read loop's per-iteration state (line_buf, index, records handed
   to the sink, counts of error!/warn! log emissions, count of write_csv
   calls) is the LoopState structure; the effects of one read result are the
   loopStep function.  panic! unwinds to the installed panic hook, which logs
   and calls exit(1); this terminal outcome is the StepRes.panicked result,
   and exit(0) on an interrupted read is StepRes.exitZero.
 - write_csv performs file IO, so its result is supplied by an oracle
   (Config.sink), indexed by how many write_csv calls happened before;
   SinkResult.errNotFound is an io::Error of kind NotFound (the destination
   is absent and create was not allowed), SinkResult.errOther any other
   failure.
 - The Ctrl-C handler and the shared AtomicBool are modelled by ctrlcHandler
   over a Lifecycle state; the handler body is
   serial_end(..).unwrap(); r.store(false), so a failed stop write panics
   (Option.none) before the flag store runs.
-/

namespace Charter

/-- Rust strings are sequences of Unicode scalar values; we model them as
lists of natural numbers. -/
abbrev Str := List Nat

/-- Convenience embedding of a Lean string literal as a list of scalar
values, used only to name concrete inputs. -/
def strCodes (s : String) : Str := s.toList.map Char.toNat

/-- The Unicode White_Space predicate on scalar values, as implemented by
Rust's char::is_whitespace (used by split_whitespace and trim_end). -/
def isWhitespaceRust (c : Nat) : Bool :=
  decide ((9 ≤ c ∧ c ≤ 13) ∨ c = 32 ∨ c = 133 ∨ c = 160 ∨ c = 5760 ∨
    (8192 ≤ c ∧ c ≤ 8202) ∨ c = 8232 ∨ c = 8233 ∨ c = 8239 ∨ c = 8287 ∨
    c = 12288)

/-- Valid Unicode scalar values: all code points except the surrogate range
0xD800-0xDFFF and values above 0x10FFFF. -/
def isValidScalar (c : Nat) : Bool :=
  decide (c < 55296 ∨ (57344 ≤ c ∧ c < 1114112))

/-- Helper for splitWhitespace: walks the text keeping the current partial
token (in reverse); a whitespace character flushes a nonempty token. -/
def splitWsAux : Str → Str → List Str
  | [], cur => if cur = [] then [] else [cur.reverse]
  | c :: rest, cur =>
    if isWhitespaceRust c then
      if cur = [] then splitWsAux rest []
      else cur.reverse :: splitWsAux rest []
    else splitWsAux rest (c :: cur)

/-- Model of str::split_whitespace collected into a list: the maximal runs
of non-whitespace characters, in order. -/
def splitWhitespace (s : Str) : List Str := splitWsAux s []

/-- Model of str::trim_end: drop trailing whitespace characters. -/
def trimEnd (s : Str) : Str := (s.reverse.dropWhile isWhitespaceRust).reverse

/-- Scalar value of the hex digit for a nibble, lowercase, as produced by
the hex crate's encoder. -/
def hexDigit (n : Nat) : Nat := if n < 10 then 48 + n else 87 + n

/-- Model of hex::encode restricted to byte lists: two lowercase hex digits
per byte. -/
def hexEncode : List Nat → Str
  | [] => []
  | b :: bs => hexDigit (b / 16) :: hexDigit (b % 16) :: hexEncode bs

/-- Value of one hex digit character, accepting 0-9, a-f and A-F as
hex::decode does. -/
def hexVal (c : Nat) : Option Nat :=
  if 48 ≤ c ∧ c ≤ 57 then some (c - 48)
  else if 97 ≤ c ∧ c ≤ 102 then some (c - 87)
  else if 65 ≤ c ∧ c ≤ 70 then some (c - 55)
  else none

/-- Model of hex::decode: fails on odd length or a non-hex character,
otherwise produces one byte per digit pair. -/
def hexDecode : Str → Option (List Nat)
  | [] => some []
  | [_] => none
  | c1 :: c2 :: rest =>
    match hexVal c1, hexVal c2, hexDecode rest with
    | some h, some l, some bs => some ((16 * h + l) :: bs)
    | _, _, _ => none

/-- UTF-8 encoding of one scalar value (1 to 4 bytes). -/
def utf8EncodeChar (c : Nat) : List Nat :=
  if c < 128 then [c]
  else if c < 2048 then [192 + c / 64, 128 + c % 64]
  else if c < 65536 then [224 + c / 4096, 128 + c / 64 % 64, 128 + c % 64]
  else [240 + c / 262144, 128 + c / 4096 % 64, 128 + c / 64 % 64, 128 + c % 64]

/-- UTF-8 encoding of a string, one character after the other (Rust
String::as_bytes of the string built from these characters). -/
def utf8Encode : Str → List Nat
  | [] => []
  | c :: cs => utf8EncodeChar c ++ utf8Encode cs

/-- Byte-at-a-time strict UTF-8 validator and decoder, the loop of Rust's
String::from_utf8 validation.  The state is the number of continuation
bytes still expected after the current one (needed), the scalar value
accumulated so far (acc), and the admissible range lo-hi for the next
byte: a first byte of 224 forces 160-191 on the second byte (no overlong
three-byte forms), 237 forces 128-159 (no surrogates), 240 forces 144-191
(no overlong four-byte forms) and 244 forces 128-143 (nothing above
0x10FFFF); every later continuation byte must lie in 128-191.  First
bytes 128-193 (stray continuation bytes and overlong two-byte forms) and
245 and above are rejected outright, as is input ending mid-sequence. -/
def utf8Aux : Nat → Nat → Nat → Nat → List Nat → Option Str
  | 0, _, _, _, [] => some []
  | _ + 1, _, _, _, [] => none
  | 0, _, _, _, b :: rest =>
    if b < 128 then (utf8Aux 0 0 0 0 rest).map (fun s => b :: s)
    else if b < 194 then none
    else if b < 224 then utf8Aux 1 (b - 192) 128 191 rest
    else if b = 224 then utf8Aux 2 (b - 224) 160 191 rest
    else if b = 237 then utf8Aux 2 (b - 224) 128 159 rest
    else if b < 240 then utf8Aux 2 (b - 224) 128 191 rest
    else if b = 240 then utf8Aux 3 (b - 240) 144 191 rest
    else if b < 244 then utf8Aux 3 (b - 240) 128 191 rest
    else if b = 244 then utf8Aux 3 (b - 240) 128 143 rest
    else none
  | needed + 1, acc, lo, hi, b :: rest =>
    if lo ≤ b ∧ b ≤ hi then
      if needed = 0 then (utf8Aux 0 0 0 0 rest).map (fun s => (acc * 64 + (b - 128)) :: s)
      else utf8Aux needed (acc * 64 + (b - 128)) 128 191 rest
    else none

/-- Strict UTF-8 decoding of a byte list, as performed by Rust's
String::from_utf8: run the validator from its initial state. -/
def utf8Decode (l : List Nat) : Option Str := utf8Aux 0 0 0 0 l

/-- Closed error taxonomy of get_data: its own two GetDataError variants
plus the two error types reaching its callers through the try operator
(hex::FromHexError and std::string::FromUtf8Error). -/
inductive GetDataErr
  | irregularMessage
  | parseError
  | fromHexError
  | fromUtf8Error
deriving DecidableEq

/-- Model of get_data (src/main.rs lines 161-179): require exactly two
whitespace-separated tokens, hex-decode the second, UTF-8-decode the
result. -/
def get_data (line : Str) : Except GetDataErr Str :=
  let message := splitWhitespace line
  if message.length ≠ 2 then
    .error .irregularMessage
  else
    match message[1]? with
    | none => .error .parseError
    | some data =>
      match hexDecode data with
      | none => .error .fromHexError
      | some bytes =>
        match utf8Decode bytes with
        | none => .error .fromUtf8Error
        | some payload => .ok payload

/-- The record-filling loop of parse_data: start from eleven empty strings
and assign the first eleven whitespace tokens at their enumerated indices. -/
def fieldsOf (line : Str) : List Str :=
  (((splitWhitespace line).take 11).enum).foldl
    (fun data it => data.set it.1 it.2)
    (List.replicate 11 [])

/-- Model of parse_data (src/main.rs lines 181-187): always succeeds with
the filled 11-slot record. -/
def parse_data (line : Str) : Except GetDataErr (List Str) :=
  .ok (fieldsOf line)

/-- Index of the first occurrence of the "\r\n" delimiter, as found by
line_buf.find. -/
def findCRLF : Str → Option Nat
  | [] => none
  | c :: rest =>
    if c = 13 ∧ rest.head? = some 10 then some 0
    else (findCRLF rest).map (fun n => n + 1)

/-- Result of one call of write_csv, as seen by the dispatch code in main:
success, an io::Error of kind NotFound (destination absent while creation
is disallowed), or any other failure. -/
inductive SinkResult
  | ok
  | errNotFound
  | errOther
deriving DecidableEq

/-- Mutable state of the main read loop: the carry-over line buffer, the
record index, the records successfully handed to the sink, the number of
write_csv calls made, and the counts of error!/warn! log emissions. -/
structure LoopState where
  line_buf : Str
  index : Nat
  dispatched : List (List Str)
  writes : Nat
  errors : Nat
  warns : Nat
deriving DecidableEq

/-- Static configuration of the loop: whether a CSV output path was given,
and the oracle giving the outcome of each successive write_csv call. -/
structure Config where
  output : Bool
  sink : Nat → SinkResult

/-- Result of running part of the loop: continue with a new state, process
termination through the panic hook (exit code 1), or exit(0) on an
interrupted read. -/
inductive StepRes
  | next (st : LoopState)
  | panicked
  | exitZero
deriving DecidableEq

/-- Model of the record dispatch in main (lines 92-118): with a CSV output,
call write_csv and panic on an io NotFound error, log any other failure;
without one, log the record.  The index is incremented in every surviving
branch. -/
def dispatch (cfg : Config) (st : LoopState) (record : List Str) : StepRes :=
  if cfg.output then
    match cfg.sink st.writes with
    | .ok => .next { st with dispatched := st.dispatched ++ [record], writes := st.writes + 1, index := st.index + 1 }
    | .errNotFound => .panicked
    | .errOther => .next { st with writes := st.writes + 1, errors := st.errors + 1, index := st.index + 1 }
  else
    .next { st with dispatched := st.dispatched ++ [record], index := st.index + 1 }

/-- Model of the body handling one extracted line (lines 89-122): on a
get_data failure warn and continue; on success parse the record and
dispatch it. -/
def processLine (cfg : Config) (st : LoopState) (line : Str) : StepRes :=
  match get_data line with
  | .error _ => .next { st with warns := st.warns + 1 }
  | .ok data =>
    match parse_data data with
    | .error _ => .next st
    | .ok record => dispatch cfg st record

/-- Model of the inner while-let loop (lines 86-123): while the buffer
contains "\r\n", extract the prefix before the first delimiter, trim its
end, clear the whole buffer, and process the line. -/
def drainLines (cfg : Config) (st : LoopState) : StepRes :=
  match hf : findCRLF st.line_buf with
  | none => .next st
  | some pos =>
    match hp : processLine cfg { st with line_buf := [] }
        (trimEnd (st.line_buf.take pos)) with
    | .panicked => .panicked
    | .exitZero => .exitZero
    | .next st2 => drainLines cfg st2
termination_by st.line_buf.length
decreasing_by
  have hbuf : st2.line_buf = [] := by
    simp only [processLine] at hp
    split at hp
    · injection hp with h; rw [← h]
    · split at hp
      · injection hp with h; rw [← h]
      · simp only [dispatch] at hp
        split at hp
        · split at hp
          · injection hp with h; rw [← h]
          · exact absurd hp (by simp)
          · injection hp with h; rw [← h]
        · injection hp with h; rw [← h]
  have hpos : st.line_buf ≠ [] := by
    intro h
    rw [h] at hf
    simp [findCRLF] at hf
  rw [hbuf]
  cases h : st.line_buf with
  | nil => exact absurd h hpos
  | cons a t => simp

/-- Model of one iteration body after a successful read (lines 77-124):
UTF-8-decode the chunk (on failure log and continue with everything else
unchanged), append it to the line buffer and drain complete lines. -/
def processChunk (cfg : Config) (st : LoopState) (chunk : List Nat) : StepRes :=
  match utf8Decode chunk with
  | none => .next { st with errors := st.errors + 1 }
  | some str => drainLines cfg { st with line_buf := st.line_buf ++ str }

/-- Outcome of one serial.read call, as matched by main (lines 76-130). -/
inductive ReadResult
  | ok (bytes : List Nat)
  | timedOut
  | interrupted
  | otherErr
deriving DecidableEq

/-- Model of one full iteration of the read loop given the read outcome:
a timeout is a silent no-op re-poll, an interrupted read is exit(0), any
other read error panics, and a successful read processes the chunk. -/
def loopStep (cfg : Config) (st : LoopState) : ReadResult → StepRes
  | .ok bytes => processChunk cfg st bytes
  | .timedOut => .next st
  | .interrupted => .exitZero
  | .otherErr => .panicked

/-- Run the loop over a sequence of successful reads, stopping early on a
terminal outcome. -/
def runChunks (cfg : Config) : LoopState → List (List Nat) → StepRes
  | st, [] => .next st
  | st, c :: cs =>
    match processChunk cfg st c with
    | .next st2 => runChunks cfg st2 cs
    | .panicked => .panicked
    | .exitZero => .exitZero

/-- Outcome of one serial write_all call. -/
inductive WriteResult
  | ok
  | err
deriving DecidableEq

/-- Shared lifecycle state: the AtomicBool running flag and how many stop
commands were successfully written. -/
structure Lifecycle where
  running : Bool
  stopSent : Nat
deriving DecidableEq

/-- Model of serial_end (lines 140-142): write "radio rxstop" and return
the write outcome. -/
def serial_end (w : WriteResult) : Except Unit Unit :=
  match w with
  | .ok => .ok ()
  | .err => .error ()

/-- Model of serial_begin (lines 134-138): write "radio rx 0" and create
the running flag initialized to true. -/
def serial_begin (w : WriteResult) : Except Unit Lifecycle :=
  match w with
  | .ok => .ok { running := true, stopSent := 0 }
  | .err => .error ()

/-- Model of the Ctrl-C handler closure (lines 66-69): it runs
serial_end(..).unwrap() and then stores false into the flag; a failed stop
write therefore panics (none) before the flag store executes. -/
def ctrlcHandler (w : WriteResult) (lc : Lifecycle) : Option Lifecycle :=
  match serial_end w with
  | .error _ => none
  | .ok _ => some { running := false, stopSent := lc.stopSent + 1 }

/-- The while condition of the main loop: running.load(). -/
def whileCheck (lc : Lifecycle) : Bool := lc.running

/-- Decidable equality on Except results, to evaluate concrete runs of
the decoder. -/
instance instDecEqExcept {ε α : Type} [DecidableEq ε] [DecidableEq α] : DecidableEq (Except ε α) := fun a b =>
  match a, b with
  | .ok x, .ok y => if h : x = y then .isTrue (by rw [h]) else .isFalse (by intro hc; injection hc; contradiction)
  | .error x, .error y => if h : x = y then .isTrue (by rw [h]) else .isFalse (by intro hc; injection hc; contradiction)
  | .ok _, .error _ => .isFalse (by intro hc; injection hc)
  | .error _, .ok _ => .isFalse (by intro hc; injection hc)

/-- Processing one extracted line never modifies the line buffer: every
surviving branch of processLine and dispatch only touches the other
fields. -/
theorem processLine_line_buf {cfg : Config} {st : LoopState} {line : Str} {st' : LoopState}
    (hp : processLine cfg st line = .next st') : st'.line_buf = st.line_buf := by
  simp only [processLine] at hp
  split at hp
  · injection hp with h; rw [← h]
  · split at hp
    · injection hp with h; rw [← h]
    · simp only [dispatch] at hp
      split at hp
      · split at hp
        · injection hp with h; rw [← h]
        · exact absurd hp (by simp)
        · injection hp with h; rw [← h]
      · injection hp with h; rw [← h]

/-- Characterization of the inner while-let loop: because the loop body
clears the whole buffer, at most one line is processed per call, so
drainLines is the one-step match on the first delimiter search. -/
theorem drainLines_eq (cfg : Config) (st : LoopState) :
    drainLines cfg st =
      match findCRLF st.line_buf with
      | none => .next st
      | some pos => processLine cfg { st with line_buf := [] } (trimEnd (st.line_buf.take pos)) := by
  rw [drainLines]
  cases hf : findCRLF st.line_buf with
  | none => simp
  | some pos =>
    simp only
    cases hp : processLine cfg { st with line_buf := [] } (trimEnd (st.line_buf.take pos)) with
    | panicked => simp
    | exitZero => simp
    | next st2 =>
      simp only
      have h2 : st2.line_buf = [] := by simpa using processLine_line_buf hp
      rw [drainLines, h2]
      simp [findCRLF]


/-- Unfolding of processChunk on a chunk that is not valid UTF-8. -/
theorem processChunk_none {chunk : List Nat} (h : utf8Decode chunk = none) (cfg : Config) (st : LoopState) :
    processChunk cfg st chunk = .next { st with errors := st.errors + 1 } := by
  simp only [processChunk, h]

/-- Unfolding of processChunk on a valid UTF-8 chunk. -/
theorem processChunk_some {chunk : List Nat} {s : Str} (h : utf8Decode chunk = some s) (cfg : Config) (st : LoopState) :
    processChunk cfg st chunk = drainLines cfg { st with line_buf := st.line_buf ++ s } := by
  simp only [processChunk, h]

/-- Claim C8: when a transport read returns a timed-out error, the main
loop performs no dispatch, logs no error, leaves the line buffer and
index (and all other loop state) unchanged, and re-polls on the next
iteration: the timeout branch of loopStep is a pure no-op continue. -/
theorem c8_timeout_no_dispatch (cfg : Config) (st : LoopState) : loopStep cfg st .timedOut = .next st := rfl

/-- Claim C10: when a read chunk is not valid UTF-8, that iteration skips
the chunk: the failure is logged (errors + 1) and everything else is
left unchanged, so the line buffer keeps exactly the carry-over from
previous chunks, the record index is not incremented, and no record is
dispatched. -/
theorem c10_invalid_utf8_skipped (cfg : Config) (st : LoopState) (chunk : List Nat) (h : utf8Decode chunk = none) :
    processChunk cfg st chunk = .next { st with errors := st.errors + 1 } :=
  processChunk_none h cfg st

/-- Witness for claim C10 at the concrete invalid chunk [255] and a
non-trivial loop state. -/
theorem c10_witness :
    processChunk ⟨false, fun _ => SinkResult.ok⟩ ⟨strCodes "ab", 3, [], 2, 1, 1⟩ [255] = .next ⟨strCodes "ab", 3, [], 2, 2, 1⟩ := by
  have := c10_invalid_utf8_skipped ⟨false, fun _ => SinkResult.ok⟩ ⟨strCodes "ab", 3, [], 2, 1, 1⟩ [255] (by decide)
  simpa using this

/-- Claim C2 (amended): when the interrupt fires and the stop-command
write succeeds, the stop command is sent exactly once, the ShutdownFlag
transitions to the stop state, and the main loop exits on its next flag
check; when the stop-command write fails, the handler panics on the
unwrap before the flag store runs (the panic hook reports the error and
exits the process with code 1), so the flag never transitions. -/
theorem c2_interrupt_shutdown (lc : Lifecycle) :
    ctrlcHandler .ok lc = some ⟨false, lc.stopSent + 1⟩ ∧
    whileCheck ⟨false, lc.stopSent + 1⟩ = false ∧
    ctrlcHandler .err lc = none :=
  ⟨rfl, rfl, rfl⟩

/-- Counterexample for claim C2 as stated: with a failing stop-command
write, the Ctrl-C handler panics (serial_end(..).unwrap()), modelled by
the none result, so the ShutdownFlag does not transition to the stop
state and the loop exit happens through the panic hook rather than the
flag check, contrary to "is reported but does not block shutdown" and
"exits ... without panicking". -/
theorem c2_counterexample : ctrlcHandler .err ⟨true, 0⟩ = none := rfl

/-- Claim C6: a sink failure caused by a missing required resource (an io
NotFound error: CSV destination absent while creation is disallowed)
terminates the process fatally through the panic hook; every other sink
failure is reported (errors + 1) and the loop continues with the next
record: the failed record is not appended to the dispatched list and
exactly one write attempt is consumed, so it is dropped and not
retried. -/
theorem c6_sink_failure_policy (sink : Nat → SinkResult) (st : LoopState) (record : List Str) :
    (sink st.writes = .errNotFound → dispatch ⟨true, sink⟩ st record = .panicked) ∧
    (sink st.writes = .errOther → dispatch ⟨true, sink⟩ st record = .next { st with writes := st.writes + 1, errors := st.errors + 1, index := st.index + 1 }) := by
  constructor
  · intro h; simp [dispatch, h]
  · intro h; simp [dispatch, h]

/-- Witness for claim C6 at concrete sink oracles for both failure
kinds. -/
theorem c6_witness :
    dispatch ⟨true, fun _ => SinkResult.errNotFound⟩ ⟨[], 0, [], 0, 0, 0⟩ [[]] = .panicked ∧
    dispatch ⟨true, fun _ => SinkResult.errOther⟩ ⟨[], 0, [], 0, 0, 0⟩ [[]] = .next ⟨[], 1, [], 1, 1, 0⟩ := by
  refine ⟨(c6_sink_failure_policy _ _ _).1 rfl, ?_⟩
  have := (c6_sink_failure_policy (fun _ => SinkResult.errOther) ⟨[], 0, [], 0, 0, 0⟩ [[]]).2 rfl
  simpa using this

/-- Claim C1 (code bug, evaluated at the failing input): a single chunk
whose text is "abc\r\ndef" ends mid-line, yet after the iteration the
line buffer is empty: the loop body clears the entire buffer after
extracting "abc" (one warn is logged for the irregular line), so the
tail "def" after the last delimiter is lost instead of remaining in the
buffer for the next chunk as the claim requires. -/
theorem c1_chunk_tail_dropped :
    processChunk ⟨false, fun _ => SinkResult.ok⟩ ⟨[], 0, [], 0, 0, 0⟩ (utf8Encode (strCodes "abc\r\ndef")) = .next ⟨[], 0, [], 0, 0, 1⟩ := by
  rw [processChunk_some (by decide : utf8Decode (utf8Encode (strCodes "abc\r\ndef")) = some (strCodes "abc\r\ndef")) _ _, drainLines_eq]
  decide


/-- Feeding non-whitespace characters into the splitter extends the
current token. -/
theorem splitWsAux_nonws (xs : Str) (hxs : ∀ c ∈ xs, isWhitespaceRust c = false) (ys cur : Str) :
    splitWsAux (xs ++ ys) cur = splitWsAux ys (xs.reverse ++ cur) := by
  induction xs generalizing cur with
  | nil => simp
  | cons x t ih =>
    have hx : isWhitespaceRust x = false := hxs x (by simp)
    have ht : ∀ c ∈ t, isWhitespaceRust c = false := fun c hc => hxs c (by simp [hc])
    simp only [List.cons_append, splitWsAux, hx, Bool.false_eq_true, if_false, List.append_eq]
    rw [ih ht]
    simp [List.append_assoc]

/-- Leading whitespace with no pending token is skipped. -/
theorem splitWsAux_ws_nil (xs : Str) (hxs : ∀ c ∈ xs, isWhitespaceRust c = true) (ys : Str) :
    splitWsAux (xs ++ ys) [] = splitWsAux ys [] := by
  induction xs with
  | nil => simp
  | cons x t ih =>
    have hx : isWhitespaceRust x = true := hxs x (by simp)
    have ht : ∀ c ∈ t, isWhitespaceRust c = true := fun c hc => hxs c (by simp [hc])
    simp only [List.cons_append, splitWsAux, hx, if_true, List.append_eq]
    exact ih ht

/-- A whitespace character flushes a pending nonempty token. -/
theorem splitWsAux_flush (c : Nat) (hc : isWhitespaceRust c = true) (t cur : Str) (hcur : cur ≠ []) :
    splitWsAux (c :: t) cur = cur.reverse :: splitWsAux t [] := by
  simp [splitWsAux, hc, hcur]

/-- End of input flushes a pending nonempty token. -/
theorem splitWsAux_nil_ne (cur : Str) (h : cur ≠ []) : splitWsAux [] cur = [cur.reverse] := by
  simp [splitWsAux, h]

/-- A line made of one nonempty non-whitespace token, a nonempty
whitespace separator and a second nonempty non-whitespace token splits
into exactly those two tokens. -/
theorem splitWhitespace_sep (t1 sep t2 : Str) (h1 : t1 ≠ []) (h1n : ∀ c ∈ t1, isWhitespaceRust c = false)
    (hs : sep ≠ []) (hsw : ∀ c ∈ sep, isWhitespaceRust c = true)
    (h2 : t2 ≠ []) (h2n : ∀ c ∈ t2, isWhitespaceRust c = false) :
    splitWhitespace (t1 ++ sep ++ t2) = [t1, t2] := by
  unfold splitWhitespace
  rw [List.append_assoc, splitWsAux_nonws t1 h1n (sep ++ t2) [], List.append_nil]
  cases sep with
  | nil => exact absurd rfl hs
  | cons c ct =>
    rw [List.cons_append, splitWsAux_flush c (hsw c (by simp)) (ct ++ t2) _ (by simp [h1]),
      List.reverse_reverse, splitWsAux_ws_nil ct (fun d hd => hsw d (by simp [hd])) t2]
    have h := splitWsAux_nonws t2 h2n [] []
    rw [List.append_nil, List.append_nil] at h
    rw [h, splitWsAux_nil_ne _ (by simp [h2]), List.reverse_reverse]

/-- Claim C3: every input line that does not split into exactly two
whitespace-separated tokens makes get_data return the IrregularMessage
error, and such a line never reaches the Record Parser: processLine only
logs a warning and leaves the rest of the loop state unchanged, so
parse_data is never invoked on it. -/
theorem c3_irregular_never_parsed (line : Str) (h : (splitWhitespace line).length ≠ 2) :
    get_data line = .error .irregularMessage ∧
    ∀ (cfg : Config) (st : LoopState), processLine cfg st line = .next { st with warns := st.warns + 1 } := by
  have hg : get_data line = .error .irregularMessage := by
    simp [get_data, h]
  exact ⟨hg, fun cfg st => by simp [processLine, hg]⟩

/-- Witness for claim C3 at the three-token line "mac rx 48656C6C6F". -/
theorem c3_witness :
    get_data (strCodes "mac rx 48656C6C6F") = .error .irregularMessage ∧
    processLine ⟨false, fun _ => SinkResult.ok⟩ ⟨[], 0, [], 0, 0, 0⟩ (strCodes "mac rx 48656C6C6F") = .next ⟨[], 0, [], 0, 0, 1⟩ := by
  have h := c3_irregular_never_parsed (strCodes "mac rx 48656C6C6F") (by decide)
  exact ⟨h.1, by simpa using h.2 ⟨false, fun _ => SinkResult.ok⟩ ⟨[], 0, [], 0, 0, 0⟩⟩

/-- Claim C9: the ParseError("failed to retrieve data") branch of
get_data is unreachable for every input line: whenever the two-token
check passes, retrieving the second token succeeds. -/
theorem c9_parse_error_unreachable (line : Str) : get_data line ≠ .error .parseError := by
  intro hc
  simp only [get_data] at hc
  split at hc
  · simp at hc
  · rename_i hlen
    split at hc
    · rename_i hnone
      rw [List.getElem?_eq_none_iff] at hnone
      simp at hlen
      omega
    · split at hc
      · simp at hc
      · split at hc
        · simp at hc
        · simp at hc

/-- Witness for claim C9 at a concrete two-token line. -/
theorem c9_witness : get_data (strCodes "a b") ≠ .error .parseError :=
  c9_parse_error_unreachable (strCodes "a b")

/-- The record-filling fold preserves the length of the array. -/
theorem foldl_set_length (ps : List (Nat × Str)) (acc : List Str) :
    (ps.foldl (fun data it => data.set it.1 it.2) acc).length = acc.length := by
  induction ps generalizing acc with
  | nil => rfl
  | cons p ps ih => simp [List.foldl_cons, ih, List.length_set]

/-- Entry-wise description of folding enumerated assignments over an
array: positions in the assigned range take the corresponding token,
other positions keep the previous contents. -/
theorem foldl_set_enumFrom (ts : List Str) (j : Nat) (acc : List Str) (hlen : j + ts.length ≤ acc.length) (i : Nat) :
    ((List.enumFrom j ts).foldl (fun data it => data.set it.1 it.2) acc)[i]? =
      if j ≤ i ∧ i < j + ts.length then ts[i - j]? else acc[i]? := by
  induction ts generalizing j acc with
  | nil =>
    simp only [List.enumFrom, List.foldl_nil, List.length_nil, Nat.add_zero]
    rw [if_neg (by omega)]
  | cons t ts ih =>
    simp only [List.enumFrom, List.foldl_cons]
    rw [ih (j + 1) (acc.set j t) (by simp only [List.length_set]; simp at hlen ⊢; omega)]
    by_cases ha : j + 1 ≤ i ∧ i < j + 1 + ts.length
    · rw [if_pos ha, if_pos (by simp; omega)]
      have hij : i - j = (i - (j + 1)) + 1 := by omega
      rw [hij, List.getElem?_cons_succ]
    · rw [if_neg ha]
      by_cases hb : j ≤ i ∧ i < j + (t :: ts).length
      · have hij : i = j := by simp at ha hb; omega
        rw [if_pos hb, hij, List.getElem?_set]
        have hjlen : j < acc.length := by simp at hlen; omega
        simp [hjlen]
      · rw [if_neg hb, List.getElem?_set]
        have hne : ¬ j = i := by simp at ha hb; omega
        simp [hne]

/-- Entry-wise description of the record built by parse_data. -/
theorem fieldsOf_getElem (line : Str) (i : Nat) :
    (fieldsOf line)[i]? =
      if i < min (splitWhitespace line).length 11 then (splitWhitespace line)[i]?
      else if i < 11 then some [] else none := by
  unfold fieldsOf
  have henum : ((splitWhitespace line).take 11).enum = List.enumFrom 0 ((splitWhitespace line).take 11) := rfl
  rw [henum, foldl_set_enumFrom _ 0 _ (by simp [List.length_take]) i]
  simp only [Nat.zero_add, Nat.zero_le, true_and, Nat.sub_zero, List.length_take]
  by_cases hi : i < min (splitWhitespace line).length 11
  · rw [if_pos (by omega), if_pos hi, List.getElem?_take, if_pos (by omega)]
  · rw [if_neg (by omega), if_neg hi, List.getElem?_replicate]

/-- The record built by parse_data always has exactly 11 fields. -/
theorem fieldsOf_length (line : Str) : (fieldsOf line).length = 11 := by
  unfold fieldsOf
  rw [foldl_set_length]
  simp

/-- Claim C4: for every decoded payload, parse_data returns a record of
exactly 11 fields where the first min(k, 11) whitespace tokens occupy
positions 0..min(k, 11)-1 in order, the positions beyond the token count
are the empty string, and tokens past the 11th are discarded (position i
holds token i only for i below min(k, 11)). -/
theorem c4_parse_fixed_record (line : Str) :
    parse_data line = .ok (fieldsOf line) ∧
    (fieldsOf line).length = 11 ∧
    (∀ i, i < min (splitWhitespace line).length 11 → (fieldsOf line)[i]? = (splitWhitespace line)[i]?) ∧
    (∀ i, min (splitWhitespace line).length 11 ≤ i → i < 11 → (fieldsOf line)[i]? = some ([] : Str)) := by
  refine ⟨rfl, fieldsOf_length line, fun i hi => ?_, fun i hi hi11 => ?_⟩
  · rw [fieldsOf_getElem, if_pos hi]
  · rw [fieldsOf_getElem, if_neg (by omega), if_pos hi11]

/-- Witness for claim C4 at the three-token payload "a b c". -/
theorem c4_witness :
    parse_data (strCodes "a b c") = .ok (fieldsOf (strCodes "a b c")) ∧
    (fieldsOf (strCodes "a b c")).length = 11 ∧
    (fieldsOf (strCodes "a b c"))[1]? = (splitWhitespace (strCodes "a b c"))[1]? ∧
    (fieldsOf (strCodes "a b c"))[7]? = some ([] : Str) :=
  ⟨(c4_parse_fixed_record (strCodes "a b c")).1,
   (c4_parse_fixed_record (strCodes "a b c")).2.1,
   (c4_parse_fixed_record (strCodes "a b c")).2.2.1 1 (by decide),
   (c4_parse_fixed_record (strCodes "a b c")).2.2.2 7 (by decide) (by decide)⟩


/-- If a concatenation contains no delimiter, neither does its left
part. -/
theorem findCRLF_append_none (a b : Str) (h : findCRLF (a ++ b) = none) : findCRLF a = none := by
  induction a with
  | nil => rfl
  | cons c t ih =>
    rw [List.cons_append] at h
    simp only [findCRLF] at h ⊢
    split at h
    · exact absurd h (by simp)
    · rename_i hcond
      rw [Option.map_eq_none'] at h
      rw [if_neg ?_, ih h, Option.map_none']
      intro ⟨hc13, hhead⟩
      cases t with
      | nil => simp at hhead
      | cons d u =>
        simp at hhead
        exact hcond ⟨hc13, by simp [hhead]⟩

/-- Claim C7: for every sequence of valid-UTF-8 chunks whose decoded
concatenation (appended to the current buffer) contains no delimiter,
running the loop over them dispatches nothing, logs nothing, and retains
all appended text in the line buffer for the next call. -/
theorem c7_no_delimiter_retains (cfg : Config) (st : LoopState) (chunks : List (List Nat)) (texts : List Str)
    (hdec : List.Forall₂ (fun c t => utf8Decode c = some t) chunks texts)
    (hn : findCRLF (st.line_buf ++ texts.flatten) = none) :
    runChunks cfg st chunks = .next { st with line_buf := st.line_buf ++ texts.flatten } := by
  induction hdec generalizing st with
  | nil => simp [runChunks]
  | cons hct hcts ih =>
    rename_i c t cs ts
    rw [List.flatten_cons] at hn
    simp only [runChunks]
    rw [processChunk_some hct]
    rw [drainLines_eq]
    have hone : findCRLF (st.line_buf ++ t) = none := by
      apply findCRLF_append_none (st.line_buf ++ t) ts.flatten
      rw [List.append_assoc]
      exact hn
    simp only [hone]
    have := ih { st with line_buf := st.line_buf ++ t } (by simpa [List.append_assoc] using hn)
    rw [this]
    simp [List.append_assoc]

/-- Witness for claim C7 at two concrete delimiter-free chunks (the
second one ending in a bare carriage return). -/
theorem c7_witness :
    runChunks ⟨false, fun _ => SinkResult.ok⟩ ⟨[], 0, [], 0, 0, 0⟩ [utf8Encode (strCodes "ab"), utf8Encode (strCodes "cd\r")] =
      .next ⟨strCodes "ab" ++ strCodes "cd\r", 0, [], 0, 0, 0⟩ := by
  have h := c7_no_delimiter_retains ⟨false, fun _ => SinkResult.ok⟩ ⟨[], 0, [], 0, 0, 0⟩
    [utf8Encode (strCodes "ab"), utf8Encode (strCodes "cd\r")] [strCodes "ab", strCodes "cd\r"]
    (List.Forall₂.cons (by decide) (List.Forall₂.cons (by decide) List.Forall₂.nil))
    (by decide)
  simpa using h


/-- Decoding inverts the hex digit encoding of a nibble. -/
theorem hexVal_hexDigit (n : Nat) (h : n < 16) : hexVal (hexDigit n) = some n := by
  unfold hexVal hexDigit
  split_ifs <;> first | (exact congrArg some (by omega)) | omega

/-- hex::decode inverts hex::encode on byte lists. -/
theorem hexDecode_hexEncode (bs : List Nat) (h : ∀ b ∈ bs, b < 256) : hexDecode (hexEncode bs) = some bs := by
  induction bs with
  | nil => rfl
  | cons b bs ih =>
    have hb : b < 256 := h b (by simp)
    have hbs : ∀ x ∈ bs, x < 256 := fun x hx => h x (by simp [hx])
    simp only [hexEncode, hexDecode]
    rw [hexVal_hexDigit (b / 16) (by omega), hexVal_hexDigit (b % 16) (by omega), ih hbs]
    show some ((16 * (b / 16) + b % 16) :: bs) = some (b :: bs)
    have hv : 16 * (b / 16) + b % 16 = b := by omega
    rw [hv]

/-- Hex digit characters are not whitespace. -/
theorem hexDigit_not_ws (n : Nat) (h : n < 16) : isWhitespaceRust (hexDigit n) = false := by
  unfold hexDigit isWhitespaceRust
  split_ifs <;> simp only [decide_eq_false_iff_not] <;> omega

/-- A hex encoding contains no whitespace characters. -/
theorem hexEncode_not_ws (bs : List Nat) (h : ∀ b ∈ bs, b < 256) :
    ∀ c ∈ hexEncode bs, isWhitespaceRust c = false := by
  induction bs with
  | nil => simp [hexEncode]
  | cons b bs ih =>
    have hb : b < 256 := h b (by simp)
    intro c hc
    simp only [hexEncode, List.mem_cons] at hc
    rcases hc with rfl | rfl | hc
    · exact hexDigit_not_ws _ (by omega)
    · exact hexDigit_not_ws _ (by omega)
    · exact ih (fun x hx => h x (by simp [hx])) c hc

/-- The hex encoding of a nonempty byte list is nonempty. -/
theorem hexEncode_ne_nil (bs : List Nat) (h : bs ≠ []) : hexEncode bs ≠ [] := by
  cases bs with
  | nil => exact absurd rfl h
  | cons b t => simp [hexEncode]

/-- Every character encodes to at least one byte. -/
theorem utf8EncodeChar_ne_nil (c : Nat) : utf8EncodeChar c ≠ [] := by
  unfold utf8EncodeChar
  split_ifs <;> simp

/-- The UTF-8 encoding of a nonempty string is nonempty. -/
theorem utf8Encode_ne_nil (s : Str) (h : s ≠ []) : utf8Encode s ≠ [] := by
  cases s with
  | nil => exact absurd rfl h
  | cons c t =>
    simp only [utf8Encode]
    intro hc
    rcases List.append_eq_nil.mp hc with ⟨h1, _⟩
    exact utf8EncodeChar_ne_nil c h1

/-- The UTF-8 encoding of a valid scalar value consists of bytes. -/
theorem utf8EncodeChar_lt_256 (c : Nat) (h : isValidScalar c = true) :
    ∀ b ∈ utf8EncodeChar c, b < 256 := by
  simp only [isValidScalar, decide_eq_true_eq] at h
  intro b hb
  unfold utf8EncodeChar at hb
  split_ifs at hb <;> simp at hb <;> omega

/-- The UTF-8 encoding of a valid string consists of bytes. -/
theorem utf8Encode_lt_256 (s : Str) (h : ∀ c ∈ s, isValidScalar c = true) :
    ∀ b ∈ utf8Encode s, b < 256 := by
  induction s with
  | nil => simp [utf8Encode]
  | cons c t ih =>
    intro b hb
    simp only [utf8Encode, List.mem_append] at hb
    rcases hb with hb | hb
    · exact utf8EncodeChar_lt_256 c (h c (by simp)) b hb
    · exact ih (fun x hx => h x (by simp [hx])) b hb

/-- One validator step from the initial state on the first byte of a
sequence. -/
theorem utf8Aux_head (b : Nat) (rest : List Nat) :
    utf8Aux 0 0 0 0 (b :: rest) =
      if b < 128 then (utf8Aux 0 0 0 0 rest).map (fun s => b :: s)
      else if b < 194 then none
      else if b < 224 then utf8Aux 1 (b - 192) 128 191 rest
      else if b = 224 then utf8Aux 2 (b - 224) 160 191 rest
      else if b = 237 then utf8Aux 2 (b - 224) 128 159 rest
      else if b < 240 then utf8Aux 2 (b - 224) 128 191 rest
      else if b = 240 then utf8Aux 3 (b - 240) 144 191 rest
      else if b < 244 then utf8Aux 3 (b - 240) 128 191 rest
      else if b = 244 then utf8Aux 3 (b - 240) 128 143 rest
      else none := rfl

/-- Validator step consuming the last expected continuation byte. -/
theorem utf8Aux_one (acc lo hi b : Nat) (rest : List Nat) :
    utf8Aux 1 acc lo hi (b :: rest) =
      if lo ≤ b ∧ b ≤ hi then (utf8Aux 0 0 0 0 rest).map (fun s => (acc * 64 + (b - 128)) :: s)
      else none := rfl

/-- Validator step with two continuation bytes still expected. -/
theorem utf8Aux_two (acc lo hi b : Nat) (rest : List Nat) :
    utf8Aux 2 acc lo hi (b :: rest) =
      if lo ≤ b ∧ b ≤ hi then utf8Aux 1 (acc * 64 + (b - 128)) 128 191 rest
      else none := rfl

/-- Validator step with three continuation bytes still expected. -/
theorem utf8Aux_three (acc lo hi b : Nat) (rest : List Nat) :
    utf8Aux 3 acc lo hi (b :: rest) =
      if lo ≤ b ∧ b ≤ hi then utf8Aux 2 (acc * 64 + (b - 128)) 128 191 rest
      else none := rfl

/-- The decoder consumes the encoding of one valid scalar value and
prepends that value. -/
theorem utf8Aux_encodeChar (c : Nat) (hv : isValidScalar c = true) (bs : List Nat) :
    utf8Aux 0 0 0 0 (utf8EncodeChar c ++ bs) = (utf8Aux 0 0 0 0 bs).map (fun s => c :: s) := by
  simp only [isValidScalar, decide_eq_true_eq] at hv
  unfold utf8EncodeChar
  split_ifs with h1 h2 h3
  · simp only [List.cons_append, List.nil_append]
    rw [utf8Aux_head, if_pos h1]
  · simp only [List.cons_append, List.nil_append]
    have n1 : ¬ (192 + c / 64 < 128) := by omega
    have n2 : ¬ (192 + c / 64 < 194) := by omega
    have e3 : 192 + c / 64 < 224 := by omega
    have k1 : 128 ≤ 128 + c % 64 ∧ 128 + c % 64 ≤ 191 := by omega
    rw [utf8Aux_head, if_neg n1, if_neg n2, if_pos e3, utf8Aux_one, if_pos k1]
    have hval : (192 + c / 64 - 192) * 64 + (128 + c % 64 - 128) = c := by omega
    rw [hval]
  · simp only [List.cons_append, List.nil_append]
    have n1 : ¬ (224 + c / 4096 < 128) := by omega
    have n2 : ¬ (224 + c / 4096 < 194) := by omega
    have n3 : ¬ (224 + c / 4096 < 224) := by omega
    have k2 : 128 ≤ 128 + c % 64 ∧ 128 + c % 64 ≤ 191 := by omega
    have hval : ((224 + c / 4096 - 224) * 64 + (128 + c / 64 % 64 - 128)) * 64 + (128 + c % 64 - 128) = c := by omega
    by_cases hA : c / 4096 = 0
    · have e4 : 224 + c / 4096 = 224 := by omega
      have k1 : 160 ≤ 128 + c / 64 % 64 ∧ 128 + c / 64 % 64 ≤ 191 := by omega
      rw [utf8Aux_head, if_neg n1, if_neg n2, if_neg n3, if_pos e4, utf8Aux_two, if_pos k1, utf8Aux_one, if_pos k2, hval]
    · by_cases hB : c / 4096 = 13
      · have n4 : ¬ (224 + c / 4096 = 224) := by omega
        have e5 : 224 + c / 4096 = 237 := by omega
        have k1 : 128 ≤ 128 + c / 64 % 64 ∧ 128 + c / 64 % 64 ≤ 159 := by omega
        rw [utf8Aux_head, if_neg n1, if_neg n2, if_neg n3, if_neg n4, if_pos e5, utf8Aux_two, if_pos k1, utf8Aux_one, if_pos k2, hval]
      · have n4 : ¬ (224 + c / 4096 = 224) := by omega
        have n5 : ¬ (224 + c / 4096 = 237) := by omega
        have e6 : 224 + c / 4096 < 240 := by omega
        have k1 : 128 ≤ 128 + c / 64 % 64 ∧ 128 + c / 64 % 64 ≤ 191 := by omega
        rw [utf8Aux_head, if_neg n1, if_neg n2, if_neg n3, if_neg n4, if_neg n5, if_pos e6, utf8Aux_two, if_pos k1, utf8Aux_one, if_pos k2, hval]
  · have hc4 : c < 1114112 := by omega
    simp only [List.cons_append, List.nil_append]
    have n1 : ¬ (240 + c / 262144 < 128) := by omega
    have n2 : ¬ (240 + c / 262144 < 194) := by omega
    have n3 : ¬ (240 + c / 262144 < 224) := by omega
    have n4 : ¬ (240 + c / 262144 = 224) := by omega
    have n5 : ¬ (240 + c / 262144 = 237) := by omega
    have n6 : ¬ (240 + c / 262144 < 240) := by omega
    have k2 : 128 ≤ 128 + c / 64 % 64 ∧ 128 + c / 64 % 64 ≤ 191 := by omega
    have k3 : 128 ≤ 128 + c % 64 ∧ 128 + c % 64 ≤ 191 := by omega
    have hval : (((240 + c / 262144 - 240) * 64 + (128 + c / 4096 % 64 - 128)) * 64 + (128 + c / 64 % 64 - 128)) * 64 + (128 + c % 64 - 128) = c := by omega
    by_cases hA : c / 262144 = 0
    · have e7 : 240 + c / 262144 = 240 := by omega
      have k1 : 144 ≤ 128 + c / 4096 % 64 ∧ 128 + c / 4096 % 64 ≤ 191 := by omega
      rw [utf8Aux_head, if_neg n1, if_neg n2, if_neg n3, if_neg n4, if_neg n5, if_neg n6, if_pos e7, utf8Aux_three, if_pos k1, utf8Aux_two, if_pos k2, utf8Aux_one, if_pos k3, hval]
    · by_cases hB : c / 262144 = 4
      · have n7 : ¬ (240 + c / 262144 = 240) := by omega
        have n8 : ¬ (240 + c / 262144 < 244) := by omega
        have e9 : 240 + c / 262144 = 244 := by omega
        have k1 : 128 ≤ 128 + c / 4096 % 64 ∧ 128 + c / 4096 % 64 ≤ 143 := by omega
        rw [utf8Aux_head, if_neg n1, if_neg n2, if_neg n3, if_neg n4, if_neg n5, if_neg n6, if_neg n7, if_neg n8, if_pos e9, utf8Aux_three, if_pos k1, utf8Aux_two, if_pos k2, utf8Aux_one, if_pos k3, hval]
      · have n7 : ¬ (240 + c / 262144 = 240) := by omega
        have e8 : 240 + c / 262144 < 244 := by omega
        have k1 : 128 ≤ 128 + c / 4096 % 64 ∧ 128 + c / 4096 % 64 ≤ 191 := by omega
        rw [utf8Aux_head, if_neg n1, if_neg n2, if_neg n3, if_neg n4, if_neg n5, if_neg n6, if_neg n7, if_pos e8, utf8Aux_three, if_pos k1, utf8Aux_two, if_pos k2, utf8Aux_one, if_pos k3, hval]

/-- String::from_utf8 inverts UTF-8 encoding on valid strings. -/
theorem utf8Decode_utf8Encode (s : Str) (h : ∀ c ∈ s, isValidScalar c = true) :
    utf8Decode (utf8Encode s) = some s := by
  induction s with
  | nil => rfl
  | cons c t ih =>
    simp only [utf8Encode, utf8Decode]
    rw [utf8Aux_encodeChar c (h c (by simp)) (utf8Encode t)]
    simp only [utf8Decode] at ih
    rw [ih (fun x hx => h x (by simp [hx]))]
    rfl

/-- Claim C5 (amended): for every nonempty UTF-8 text payload s,
constructing a line of one arbitrary nonempty non-whitespace token, a
nonempty whitespace separator and the hex encoding of s, and passing it
through the Frame Decoder get_data, returns exactly s. -/
theorem c5_roundtrip (tok sep s : Str)
    (htokne : tok ≠ []) (htok : ∀ c ∈ tok, isWhitespaceRust c = false)
    (hsepne : sep ≠ []) (hsep : ∀ c ∈ sep, isWhitespaceRust c = true)
    (hsne : s ≠ []) (hs : ∀ c ∈ s, isValidScalar c = true) :
    get_data (tok ++ sep ++ hexEncode (utf8Encode s)) = .ok s := by
  have hb256 : ∀ b ∈ utf8Encode s, b < 256 := utf8Encode_lt_256 s hs
  have hhexne : hexEncode (utf8Encode s) ≠ [] := hexEncode_ne_nil _ (utf8Encode_ne_nil s hsne)
  have hhexnws : ∀ c ∈ hexEncode (utf8Encode s), isWhitespaceRust c = false := hexEncode_not_ws _ hb256
  have hsplit := splitWhitespace_sep tok sep (hexEncode (utf8Encode s)) htokne htok hsepne hsep hhexne hhexnws
  simp only [get_data, hsplit, List.length_cons, List.length_nil]
  norm_num
  simp only [hexDecode_hexEncode _ hb256, utf8Decode_utf8Encode s hs]

/-- Counterexample for claim C5 as stated: for the empty payload the hex
encoding is empty, so the constructed line has a single token and
get_data returns IrregularMessage instead of the payload. -/
theorem c5_counterexample :
    get_data (strCodes "mac" ++ strCodes " " ++ hexEncode (utf8Encode [])) = .error .irregularMessage ∧
    get_data (strCodes "mac" ++ strCodes " " ++ hexEncode (utf8Encode [])) ≠ .ok ([] : Str) := by
  constructor
  · decide
  · decide

/-- Witness for claim C5 at token "mac", separator " " and payload
"Hello" (the hex encoding is the digits of 48656C6C6F in lowercase). -/
theorem c5_witness :
    get_data (strCodes "mac" ++ strCodes " " ++ hexEncode (utf8Encode (strCodes "Hello"))) = .ok (strCodes "Hello") :=
  c5_roundtrip (strCodes "mac") (strCodes " ") (strCodes "Hello")
    (by decide) (by decide) (by decide) (by decide) (by decide) (by decide)

end Charter